import Mathlib

/-!
Verification of the sql2latex pipeline (src/sql2latex.py) against its
natural-language specification.  Python functions are shallowly embedded as
Lean functions over `List Char` / `String`; Python runtime errors are
modelled with `Except`/`Option`.
-/

set_option maxRecDepth 4000

/-! ## Script splitter: parse_srcipts (source lines 33-48) -/

/-- Whitespace as stripped by Python around numerals and strings. -/
def pySpace (c : Char) : Bool := c.isWhitespace

/-- Numeric value of a list of decimal digit characters. -/
def digitsVal (ds : List Char) : Nat :=
  ds.foldl (fun n c => 10 * n + (c.toNat - '0'.toNat)) 0

/-- Model of Python's int(str) conversion: surrounding whitespace is
stripped, an optional sign is read, and the remainder must be a nonempty
digit string; any other input raises ValueError (modelled as `none`). -/
def pyIntChars (l : List Char) : Option Int :=
  let t := (((l.dropWhile pySpace).reverse).dropWhile pySpace).reverse
  match t with
  | [] => none
  | '-' :: ds =>
    if ds ≠ [] ∧ ds.all Char.isDigit then some (-(digitsVal ds : Int)) else none
  | '+' :: ds =>
    if ds ≠ [] ∧ ds.all Char.isDigit then some ((digitsVal ds : Int)) else none
  | ds =>
    if ds.all Char.isDigit then some ((digitsVal ds : Int)) else none

/-- Model of `line.startswith("-- Task")` (source line 38). -/
def startsWithTask (l : String) : Bool := "-- Task".data.isPrefixOf l.data

/-- Model of `int(line[8:])` (source line 39): the task number is parsed
from character offset 8 of the marker line onward. -/
def markerNum (l : String) : Option Int := pyIntChars (l.data.drop 8)

/-- The Python runtime errors that parse_srcipts can raise. -/
inductive PyError where
  | valueError
  | indexError
deriving DecidableEq, Repr

/-- The accumulation loop of parse_srcipts (source lines 36-44): every line
is appended to the current block; a marker line first parses its number and,
if the current block is nonempty, closes it under number (marker value - 1)
and starts a fresh block. -/
def parseLoop : List String → List (Int × List String) → List String →
    Except PyError (List (Int × List String) × List String)
  | [], scripts, script => Except.ok (scripts, script)
  | line :: rest, scripts, script =>
    if startsWithTask line then
      match markerNum line with
      | none => Except.error PyError.valueError
      | some num =>
        if script ≠ [] then
          parseLoop rest (scripts ++ [(num - 1, script)]) [line]
        else
          parseLoop rest scripts (script ++ [line])
    else
      parseLoop rest scripts (script ++ [line])

/-- Model of parse_srcipts (source lines 33-48): run the loop over the
file's lines, then append the final block numbered one past the number of
the last closed block; when no block was ever closed, `scripts[-1]` raises
IndexError (source line 46). -/
def parse_srcipts (lines : List String) :
    Except PyError (List (Int × List String)) :=
  match parseLoop lines [] [] with
  | Except.error e => Except.error e
  | Except.ok (scripts, script) =>
    match scripts.getLast? with
    | none => Except.error PyError.indexError
    | some (n, _) => Except.ok (scripts ++ [(n + 1, script)])

/-- A list with a known last element splits as an initial segment plus that
element. -/
theorem getLast?_eq_some_split {α : Type} :
    ∀ (l : List α) (a : α), l.getLast? = some a → ∃ t, l = t ++ [a] := by
  intro l
  induction l with
  | nil => intro a h; simp [List.getLast?] at h
  | cons x xs ih =>
    intro a h
    cases xs with
    | nil =>
      simp [List.getLast?] at h
      exact ⟨[], by simp [h]⟩
    | cons y ys =>
      rw [List.getLast?_cons_cons] at h
      obtain ⟨t, ht⟩ := ih a h
      exact ⟨x :: t, by simp [ht]⟩

/-- Once the current block is nonempty it stays nonempty, and every marker
line in the remaining input closes exactly one block. -/
theorem parseLoop_count :
    ∀ (lines : List String) (scripts : List (Int × List String))
      (script : List String) (res : List (Int × List String) × List String),
      script ≠ [] → parseLoop lines scripts script = Except.ok res →
      res.1.length = scripts.length + lines.countP startsWithTask ∧
        res.2 ≠ [] := by
  intro lines
  induction lines with
  | nil =>
    intro scripts script res hne hok
    simp [parseLoop] at hok
    subst hok
    simpa using hne
  | cons line rest ih =>
    intro scripts script res hne hok
    by_cases hm : startsWithTask line
    · rw [List.countP_cons_of_pos _ _ hm]
      cases hnum : markerNum line with
      | none =>
        simp only [parseLoop, hm, if_true, hnum] at hok
        exact absurd hok (by simp)
      | some num =>
        simp only [parseLoop, hm, if_true, hnum, if_pos hne] at hok
        have := ih (scripts ++ [(num - 1, script)]) [line] res (by simp) hok
        constructor
        · rw [this.1]; simp; omega
        · exact this.2
    · rw [List.countP_cons_of_neg _ _ (by simpa using hm)]
      simp only [parseLoop, hm, if_false] at hok
      have := ih scripts (script ++ [line]) res (by simp) hok
      exact this

/-- When every marker line in the remaining input carries a parseable
number, the loop cannot raise. -/
theorem parseLoop_ok :
    ∀ (lines : List String) (scripts : List (Int × List String))
      (script : List String),
      (∀ l ∈ lines, startsWithTask l = true → (markerNum l).isSome) →
      ∃ res, parseLoop lines scripts script = Except.ok res := by
  intro lines
  induction lines with
  | nil => intro scripts script _; exact ⟨(scripts, script), rfl⟩
  | cons line rest ih =>
    intro scripts script hall
    by_cases hm : startsWithTask line
    · cases hnum : markerNum line with
      | none =>
        have := hall line (by simp) hm
        rw [hnum] at this
        simp at this
      | some num =>
        by_cases hne : script ≠ []
        · obtain ⟨res, hres⟩ :=
            ih (scripts ++ [(num - 1, script)]) [line]
              (fun l hl => hall l (by simp [hl]))
          exact ⟨res, by simp only [parseLoop, hm, if_true, hnum, if_pos hne]; exact hres⟩
        · obtain ⟨res, hres⟩ :=
            ih scripts (script ++ [line]) (fun l hl => hall l (by simp [hl]))
          exact ⟨res, by simp only [parseLoop, hm, if_true, hnum, if_neg hne]; exact hres⟩
    · obtain ⟨res, hres⟩ :=
        ih scripts (script ++ [line]) (fun l hl => hall l (by simp [hl]))
      exact ⟨res, by simp only [parseLoop, hm, if_false]; exact hres⟩

/-- The blocks held by the loop state always concatenate back to the
already-consumed input: no line is lost or duplicated. -/
theorem parseLoop_join :
    ∀ (lines : List String) (scripts : List (Int × List String))
      (script : List String) (res : List (Int × List String) × List String),
      parseLoop lines scripts script = Except.ok res →
      (res.1.map Prod.snd).flatten ++ res.2 =
        (scripts.map Prod.snd).flatten ++ script ++ lines := by
  intro lines
  induction lines with
  | nil =>
    intro scripts script res hok
    simp [parseLoop] at hok
    subst hok
    simp
  | cons line rest ih =>
    intro scripts script res hok
    by_cases hm : startsWithTask line
    · cases hnum : markerNum line with
      | none =>
        simp only [parseLoop, hm, if_true, hnum] at hok
        exact absurd hok (by simp)
      | some num =>
        by_cases hne : script ≠ []
        · simp only [parseLoop, hm, if_true, hnum, if_pos hne] at hok
          have := ih _ _ _ hok
          rw [this]
          simp
        · simp only [parseLoop, hm, if_true, hnum, if_neg hne] at hok
          have := ih _ _ _ hok
          rw [this]
          simp
    · simp only [parseLoop, hm, if_false] at hok
      have := ih _ _ _ hok
      rw [this]
      simp

/-- A loop run over marker-free lines just accumulates them onto the
current block and closes nothing. -/
theorem parseLoop_no_marker :
    ∀ (lines : List String) (scripts : List (Int × List String))
      (script : List String),
      (∀ l ∈ lines, startsWithTask l = false) →
      parseLoop lines scripts script = Except.ok (scripts, script ++ lines) := by
  intro lines
  induction lines with
  | nil => intro scripts script _; simp [parseLoop]
  | cons line rest ih =>
    intro scripts script hall
    have hm : startsWithTask line = false := hall line (by simp)
    simp only [parseLoop, hm, if_false]
    rw [ih scripts (script ++ [line]) (fun l hl => hall l (by simp [hl]))]
    simp

/-- The script of the worked end-to-end example in the specification. -/
def exTaskLines : List String :=
  ["-- Task 1\n", "SELECT 1 FROM DUAL;\n", "-- Task 2\n", "SELECT 2 FROM DUAL;\n"]

/-- C1: closing a nonempty block at a marker line assigns it number
(marker value - 1); the final block is appended with the previous block's
number plus 1; on the two-task example file the splitter produces exactly
the two tasks numbered 1 and 2. -/
theorem c1_splitter_numbering :
    parse_srcipts exTaskLines =
      Except.ok [(1, ["-- Task 1\n", "SELECT 1 FROM DUAL;\n"]),
                 (2, ["-- Task 2\n", "SELECT 2 FROM DUAL;\n"])] ∧
    (∀ (line : String) (rest : List String) (scripts : List (Int × List String))
        (script : List String) (num : Int),
      startsWithTask line = true → markerNum line = some num → script ≠ [] →
      parseLoop (line :: rest) scripts script =
        parseLoop rest (scripts ++ [(num - 1, script)]) [line]) ∧
    (∀ (lines : List String) (res : List (Int × List String)),
      parse_srcipts lines = Except.ok res →
      ∃ front p q, res = front ++ [p, q] ∧ q.1 = p.1 + 1) := by
  refine ⟨by rfl, ?_, ?_⟩
  · intro line rest scripts script num hm hnum hne
    simp only [parseLoop, hm, if_true, hnum, if_pos hne]
  · intro lines res hok
    unfold parse_srcipts at hok
    split at hok
    · exact absurd hok (by simp)
    · split at hok
      · exact absurd hok (by simp)
      · rename_i xo scripts script heqo xi n b hlast
        cases hok
        obtain ⟨t, ht⟩ := getLast?_eq_some_split scripts (n, b) hlast
        exact ⟨t, (n, b), (n + 1, script), by rw [ht]; simp, rfl⟩

/-- Witness for C1: the final-block numbering rule instantiated on the
example file. -/
theorem c1_splitter_numbering_witness :
    ∃ front p q,
      ([(1, ["-- Task 1\n", "SELECT 1 FROM DUAL;\n"]),
        (2, ["-- Task 2\n", "SELECT 2 FROM DUAL;\n"])] :
          List (Int × List String)) = front ++ [p, q] ∧ q.1 = p.1 + 1 :=
  c1_splitter_numbering.2.2 exTaskLines _ (by rfl)

/-- A two-line script whose single marker line is preceded by SQL text. -/
def exLeadLines : List String := ["SELECT 0 FROM DUAL;\n", "-- Task 1\n"]

/-- C2 counterexample: a script with exactly one marker line on which the
splitter returns two tasks, not one — lines before the first marker form an
extra leading task. -/
theorem c2_marker_count_counterexample :
    exLeadLines.countP startsWithTask = 1 ∧
    parse_srcipts exLeadLines =
      Except.ok [(0, ["SELECT 0 FROM DUAL;\n"]), (1, ["-- Task 1\n"])] ∧
    ([(0, ["SELECT 0 FROM DUAL;\n"]), (1, ["-- Task 1\n"])] :
        List (Int × List String)).length ≠ 1 := by
  refine ⟨by decide, by rfl, by decide⟩

/-- C2 (amended): for every script whose first line is a marker line and
which contains N >= 2 marker lines, each carrying a parseable number, the
splitter succeeds with exactly N tasks whose line blocks concatenate back to
the original file contents in order. -/
theorem c2_split_task_count :
    ∀ (l0 : String) (rest : List String),
      startsWithTask l0 = true →
      (∀ l ∈ l0 :: rest, startsWithTask l = true → (markerNum l).isSome) →
      2 ≤ (l0 :: rest).countP startsWithTask →
      ∃ tasks, parse_srcipts (l0 :: rest) = Except.ok tasks ∧
        tasks.length = (l0 :: rest).countP startsWithTask ∧
        (tasks.map Prod.snd).flatten = l0 :: rest := by
  intro l0 rest hm0 hall hcount
  have hnum0 : (markerNum l0).isSome := hall l0 (by simp) hm0
  obtain ⟨n0, hn0⟩ : ∃ n, markerNum l0 = some n := by
    cases h : markerNum l0 with
    | none => rw [h] at hnum0; simp at hnum0
    | some n => exact ⟨n, rfl⟩
  have hstep : parseLoop (l0 :: rest) [] [] = parseLoop rest [] [l0] := by
    simp only [parseLoop, hm0, if_true, hn0]
    simp
  obtain ⟨res, hres⟩ :=
    parseLoop_ok rest [] [l0] (fun l hl => hall l (by simp [hl]))
  have hcnt := parseLoop_count rest [] [l0] res (by simp) hres
  have hjoin := parseLoop_join rest [] [l0] res hres
  have hcc : (l0 :: rest).countP startsWithTask =
      rest.countP startsWithTask + 1 := by
    rw [List.countP_cons_of_pos _ _ hm0]
  have hrest1 : 1 ≤ rest.countP startsWithTask := by omega
  have hne1 : res.1 ≠ [] := by
    intro h
    rw [h] at hcnt
    simp at hcnt
    omega
  obtain ⟨n, b, hlast⟩ : ∃ n b, res.1.getLast? = some (n, b) := by
    cases hl : res.1.getLast? with
    | none => exact absurd (List.getLast?_eq_none_iff.mp hl) hne1
    | some nb =>
      obtain ⟨nn, bb⟩ := nb
      exact ⟨nn, bb, rfl⟩

  refine ⟨res.1 ++ [(n + 1, res.2)], ?_, ?_, ?_⟩
  · unfold parse_srcipts
    rw [hstep, show (Except.ok res = Except.ok (res.1, res.2)) from by rfl] at *
    rw [hres]
    simp only [hlast]
  · simp [hcnt.1, hcc]
  · simp only [List.map_append, List.flatten_append]
    simp only [List.map_cons, List.map_nil]
    calc (res.1.map Prod.snd).flatten ++ ([res.2].flatten)
        = (res.1.map Prod.snd).flatten ++ res.2 := by simp
      _ = l0 :: rest := by rw [hjoin]; simp

/-- Witness for C2 (amended): the example file has two marker lines and
splits into exactly two tasks preserving its contents. -/
theorem c2_split_task_count_witness :
    ∃ tasks, parse_srcipts exTaskLines = Except.ok tasks ∧
      tasks.length = exTaskLines.countP startsWithTask ∧
      (tasks.map Prod.snd).flatten = exTaskLines :=
  c2_split_task_count "-- Task 1\n"
    ["SELECT 1 FROM DUAL;\n", "-- Task 2\n", "SELECT 2 FROM DUAL;\n"]
    (by decide) (by decide) (by decide)

/-- C3: a script with no marker lines at all makes the splitter fail with a
runtime error (the closing scripts[-1] access on an empty list), returning
no task list. -/
theorem c3_no_marker_runtime_error :
    ∀ lines : List String, (∀ l ∈ lines, startsWithTask l = false) →
      parse_srcipts lines = Except.error PyError.indexError := by
  intro lines hall
  unfold parse_srcipts
  rw [parseLoop_no_marker lines [] [] hall]
  simp

/-- Witness for C3: a one-statement script without markers raises. -/
theorem c3_no_marker_runtime_error_witness :
    parse_srcipts ["SELECT 1 FROM DUAL;\n"] = Except.error PyError.indexError :=
  c3_no_marker_runtime_error ["SELECT 1 FROM DUAL;\n"] (by decide)

/-- C10: the marker number is parsed from offset 8 onward, skipping the
character at offset 7: "-- Task42" parses to 2 (first digit dropped, so the
closed block gets number 1), and "-- Task1" followed by a newline has no
digits from offset 8 on, raising ValueError. -/
theorem c10_marker_offset_parse :
    markerNum "-- Task42\n" = some 2 ∧
    parse_srcipts ["x\n", "-- Task42\n"] =
      Except.ok [(1, ["x\n"]), (2, ["-- Task42\n"])] ∧
    parse_srcipts ["-- Task1\n"] = Except.error PyError.valueError ∧
    markerNum "-- Task 7\n" = some 7 := by
  refine ⟨by rfl, by rfl, by rfl, by rfl⟩

/-! ## Text sanitizer: sanitize_latex (source lines 68-72) -/

/-- Model of the external pylatexenc unicode_to_latex conversion (called
with non_ascii_only=False) restricted to its character-wise behavior on
the ASCII range this program's claims exercise: LaTeX special characters
are escaped, every other character (letters, digits, space, '|',
punctuation) maps to itself. -/
def unicodeToLatexChar (c : Char) : List Char :=
  if c = '&' then "\\&".data
  else if c = '%' then "\\%".data
  else if c = '$' then "\\$".data
  else if c = '#' then "\\#".data
  else if c = '_' then "\\_".data
  else if c = '\x7b' then "\\\x7b".data
  else if c = '\x7d' then "\\\x7d".data
  else if c = '~' then "\\textasciitilde".data
  else if c = '^' then "\\textasciicircum".data
  else if c = '\\' then "\\textbackslash".data
  else [c]

/-- unicode_to_latex applied to a whole string (source line 69). -/
def unicode_to_latex (l : List Char) : List Char :=
  (l.map unicodeToLatexChar).flatten

/-- Model of string.replace("|", r"\text{\textbar}") (source line 70):
the pattern is a single character, so this is a character-wise map. -/
def barReplace (l : List Char) : List Char :=
  (l.map (fun c => if c = '|' then "\\text\x7b\\textbar\x7d".data else [c])).flatten

/-- What a finished run of n consecutive spaces becomes under
re.sub(r" {2,}", lambda m: "~" * len(m.group(0)), ...): runs of length at
least two are rewritten to the same number of '~', shorter runs stay. -/
def spacesOut (n : Nat) : List Char :=
  if 2 ≤ n then List.replicate n '~' else List.replicate n ' '

/-- One step of the left-to-right scan of the space-run substitution
(source line 71): consecutive spaces are held pending; any other character
flushes the pending run. -/
def csStep (st : List Char × Nat) (c : Char) : List Char × Nat :=
  if c = ' ' then (st.1, st.2 + 1) else (st.1 ++ spacesOut st.2 ++ [c], 0)

/-- Model of re.sub(r" {2,}", lambda m: "~" * len(m.group(0)), string)
(source line 71). -/
def collapseSpaces (l : List Char) : List Char :=
  let st := l.foldl csStep ([], 0)
  st.1 ++ spacesOut st.2

/-- Model of sanitize_latex (source lines 68-72): unicode escaping, then
vertical-bar replacement, then the space-run substitution. -/
def sanitize_latex (s : String) : String :=
  String.mk (collapseSpaces (barReplace (unicode_to_latex s.data)))

/-- Dropping a while-matched part never lengthens a list. -/
theorem length_dropWhile_le_self {α : Type} (p : α → Bool) :
    ∀ l : List α, (l.dropWhile p).length ≤ l.length := by
  intro l
  induction l with
  | nil => simp [List.dropWhile]
  | cons x xs ih =>
    by_cases h : p x
    · rw [List.dropWhile_cons_of_pos h]; simp; omega
    · rw [List.dropWhile_cons_of_neg h]

/-- The specification's own statement of the space rule: each maximal run
of consecutive spaces of length two or more is replaced by the same number
of non-breaking-space markers '~'; single spaces and other characters are
kept unchanged.  Stated by taking whole maximal runs at a time. -/
def specCollapse : List Char → List Char
  | [] => []
  | c :: rest =>
    if c = ' ' then
      spacesOut (1 + (rest.takeWhile (fun d => d == ' ')).length) ++
        specCollapse (rest.dropWhile (fun d => d == ' '))
    else c :: specCollapse rest
termination_by l => l.length
decreasing_by
  · simp only [List.length_cons]
    have := length_dropWhile_le_self (fun d => d == ' ') rest
    omega
  · simp only [List.length_cons]
    omega

/-- A run of spaces followed by a non-space splits cleanly under
takeWhile/dropWhile on the space predicate. -/
theorem space_run_split (c : Char) (hc : (c == ' ') = false) :
    ∀ (k : Nat) (l : List Char),
      (List.replicate k ' ' ++ c :: l).takeWhile (fun d => d == ' ') =
          List.replicate k ' ' ∧
        (List.replicate k ' ' ++ c :: l).dropWhile (fun d => d == ' ') =
          c :: l := by
  intro k
  induction k with
  | zero =>
    intro l
    constructor
    · simp [List.takeWhile_cons, hc]
    · simp [List.dropWhile_cons, hc]
  | succ k ih =>
    intro l
    rw [List.replicate_succ]
    constructor
    · simp only [List.cons_append, List.takeWhile_cons]
      simp [(ih l).1]
    · simp only [List.cons_append, List.dropWhile_cons]
      simp [(ih l).2]

/-- specCollapse turns a pure space run into its substitution. -/
theorem specCollapse_replicate :
    ∀ n : Nat, specCollapse (List.replicate n ' ') = spacesOut n := by
  intro n
  cases n with
  | zero => simp [specCollapse, spacesOut]
  | succ k =>
    rw [List.replicate_succ]
    rw [specCollapse]
    simp only [if_pos rfl]
    have ht : (List.replicate k ' ').takeWhile (fun d => d == ' ') =
        List.replicate k ' ' := by
      induction k with
      | zero => simp
      | succ m ihm => rw [List.replicate_succ, List.takeWhile_cons]; simp [ihm]
    have hd : (List.replicate k ' ').dropWhile (fun d => d == ' ') = [] := by
      induction k with
      | zero => simp
      | succ m ihm => rw [List.replicate_succ, List.dropWhile_cons]; simp [ihm]
    rw [ht, hd]
    simp [specCollapse, Nat.add_comm]

/-- specCollapse past a space run that ends at a non-space character. -/
theorem specCollapse_run_cons (c : Char) (hc : (c == ' ') = false) :
    ∀ (n : Nat) (l : List Char),
      specCollapse (List.replicate n ' ' ++ c :: l) =
        spacesOut n ++ c :: specCollapse l := by
  intro n l
  cases n with
  | zero =>
    simp only [List.replicate_zero, List.nil_append]
    rw [specCollapse]
    have : ¬ (c = ' ') := by
      intro h; rw [h] at hc; simp at hc
    rw [if_neg this]
    simp [spacesOut]
  | succ k =>
    rw [List.replicate_succ, List.cons_append, specCollapse]
    simp only [if_pos rfl]
    rw [(space_run_split c hc k l).1, (space_run_split c hc k l).2]
    rw [specCollapse]
    have : ¬ (c = ' ') := by
      intro h; rw [h] at hc; simp at hc
    rw [if_neg this]
    simp [Nat.add_comm]

/-- The left-to-right pending-run scan agrees with the specification's
run-at-a-time description, for any starting state. -/
theorem foldl_csStep_spec :
    ∀ (l : List Char) (out : List Char) (pend : Nat),
      (l.foldl csStep (out, pend)).1 ++ spacesOut (l.foldl csStep (out, pend)).2 =
        out ++ specCollapse (List.replicate pend ' ' ++ l) := by
  intro l
  induction l with
  | nil =>
    intro out pend
    simp [specCollapse_replicate]
  | cons c l' ih =>
    intro out pend
    by_cases hc : c = ' '
    · subst hc
      rw [List.foldl_cons]
      rw [show csStep (out, pend) ' ' = (out, pend + 1) from by simp [csStep]]
      rw [ih out (pend + 1)]
      have : List.replicate pend ' ' ++ ' ' :: l' =
          List.replicate (pend + 1) ' ' ++ l' := by
        rw [List.replicate_succ']
        simp
      rw [this]
    · rw [List.foldl_cons]
      rw [show csStep (out, pend) c = (out ++ spacesOut pend ++ [c], 0) from by
        simp [csStep, hc]]
      rw [ih (out ++ spacesOut pend ++ [c]) 0]
      rw [specCollapse_run_cons c (by simpa using hc) pend l']
      simp [specCollapse_run_cons]

/-- spacesOut preserves length. -/
theorem spacesOut_length (n : Nat) : (spacesOut n).length = n := by
  unfold spacesOut
  by_cases h : 2 ≤ n <;> simp [h]

/-- The specification substitution preserves the string's length. -/
theorem specCollapse_length : ∀ l : List Char, (specCollapse l).length = l.length := by
  have key : ∀ (n : Nat) (l : List Char), l.length ≤ n →
      (specCollapse l).length = l.length := by
    intro n
    induction n with
    | zero =>
      intro l hl
      have : l = [] := by
        cases l with
        | nil => rfl
        | cons x xs => simp at hl
      subst this
      simp [specCollapse]
    | succ n ih =>
      intro l hl
      cases l with
      | nil => simp [specCollapse]
      | cons c rest =>
        by_cases hc : c = ' '
        · subst hc
          rw [specCollapse, if_pos rfl]
          have hsplit := List.takeWhile_append_dropWhile (p := fun d => d == ' ')
            (l := rest)
          have hlen : (rest.takeWhile (fun d => d == ' ')).length +
              (rest.dropWhile (fun d => d == ' ')).length = rest.length := by
            conv_rhs => rw [← hsplit]
            rw [List.length_append]
          have hdrop : (rest.dropWhile (fun d => d == ' ')).length ≤ n := by
            have := length_dropWhile_le_self (fun d => d == ' ') rest
            simp at hl
            omega
          rw [List.length_append, spacesOut_length, ih _ hdrop]
          simp at hl ⊢
          omega
        · rw [specCollapse, if_neg hc]
          have : rest.length ≤ n := by simp at hl; omega
          simp [ih rest this]
  intro l
  exact key l.length l (Nat.le_refl _)

/-- C7: the space-run substitution of sanitize_latex replaces each maximal
run of two or more consecutive spaces by the same number of '~' markers
(the scan agrees with the run-at-a-time specification), preserves the
string length, and sanitizing "a  b" yields "a~~b". -/
theorem c7_space_run_sanitizing :
    (∀ l : List Char, collapseSpaces l = specCollapse l) ∧
    (∀ l : List Char, (collapseSpaces l).length = l.length) ∧
    sanitize_latex "a  b" = "a~~b" := by
  have heq : ∀ l : List Char, collapseSpaces l = specCollapse l := by
    intro l
    have := foldl_csStep_spec l [] 0
    simpa [collapseSpaces] using this
  refine ⟨heq, ?_, by decide⟩
  intro l
  rw [heq l]
  exact specCollapse_length l

/-! ## Report renderer: print_table and outcome classification
(source lines 74-86 and 121-129) -/

/-- Python sep.join(list) over strings. -/
def joinSep (sep : String) : List String → String
  | [] => ""
  | [x] => x
  | x :: xs => x ++ sep ++ joinSep sep xs

/-- Python string repetition s * n. -/
def strRepeat (s : String) : Nat → String
  | 0 => ""
  | n + 1 => s ++ strRepeat s n

/-- The header cell markup for one column name (source line 78). -/
def headerCell (col : String) : String :=
  "\\multicolumn\x7b1\x7d\x7b|c|\x7d\x7b\\textbf\x7b" ++ sanitize_latex col ++ "\x7d\x7d"

/-- The emitted header row: the cells joined by " & ", then print's second
argument r"\\" separated by one space (source line 78). -/
def headerRow (cols : List String) : String :=
  joinSep " & " (cols.map headerCell) ++ " \\\\"

/-- One emitted data row: sanitized cell texts joined by " & ", then r"\\"
(source line 82); cells are already the str() of the fetched values. -/
def dataRow (row : List String) : String :=
  joinSep " & " (row.map sanitize_latex) ++ " \\\\"

/-- Model of print_table (source lines 74-86) as the list of output lines. -/
def print_table (column_names : List String) (rows : List (List String)) :
    List String :=
  ["\\begin\x7bcenter\x7d",
   "\\begin\x7btabularx\x7d\x7b\\textwidth\x7d\x7b|" ++
     strRepeat "X|" column_names.length ++ "\x7d",
   "\\hline",
   headerRow column_names,
   "\\hline"] ++
  (rows.map (fun row => [dataRow row, "\\hline"])).flatten ++
  ["\\end\x7btabularx\x7d", "\\end\x7bcenter\x7d"]

/-- The affected-rows status line (source line 127). -/
def rowcountLine (rc : Int) : String :=
  "\\textbf\x7b" ++ toString rc ++ "\x7d " ++
    (if rc = 1 then "row" else "rows") ++ " affected."

/-- Model of the outcome classification after cursor.execute (source lines
122-129): a non-None cursor description renders all fetched rows as a
table; otherwise a positive rowcount prints the affected-rows line, and any
other rowcount prints the generic line. -/
def classifyOutcome (description : Option (List String))
    (fetchedRows : List (List String)) (rowcount : Int) : List String :=
  match description with
  | some cols => print_table cols fetchedRows
  | none =>
    if rowcount > 0 then [rowcountLine rowcount]
    else ["Statement executed."]

/-- A prefix is in particular an infix. -/
theorem pref_inf {x y : List Char} (h : x <+: y) : x <:+: y :=
  List.IsPrefix.isInfix h

/-- A suffix is in particular an infix. -/
theorem suf_inf {x y : List Char} (h : x <:+ y) : x <:+: y :=
  List.IsSuffix.isInfix h

/-- Every member of a joined list appears inside the joined string. -/
theorem joinSep_mem_inside (sep : String) :
    ∀ (l : List String) (x : String), x ∈ l →
      x.data <:+: (joinSep sep l).data := by
  intro l
  induction l with
  | nil => intro x hx; simp at hx
  | cons y ys ih =>
    intro x hx
    cases ys with
    | nil =>
      simp at hx
      subst hx
      exact pref_inf (List.prefix_refl x.data)
    | cons z zs =>
      rw [show joinSep sep (y :: z :: zs) = y ++ sep ++ joinSep sep (z :: zs)
        from rfl]
      rcases List.mem_cons.mp hx with h | h
      · subst h
        simp only [String.data_append, List.append_assoc]
        exact pref_inf (List.prefix_append x.data _)
      · have hrec := ih x h
        have hsfx : (joinSep sep (z :: zs)).data <:+
            (y ++ sep ++ joinSep sep (z :: zs)).data := by
          simp only [String.data_append]
          exact List.suffix_append _ _
        exact hrec.trans (suf_inf hsfx)

/-- C4: a non-None cursor description always renders the fetched rows as a
table; with zero fetched rows the table is exactly the frame plus the
header row and nothing else; the header row contains every sanitized
column name; without a description, rowcount 1 gives the singular
"row affected." line, rowcount 2 or more gives the plural
"rows affected." line, and rowcount 0 gives "Statement executed.". -/
theorem c4_outcome_classification :
    (∀ (cols : List String) (rows : List (List String)) (rc : Int),
      classifyOutcome (some cols) rows rc = print_table cols rows) ∧
    (∀ cols : List String,
      print_table cols [] =
        ["\\begin\x7bcenter\x7d",
         "\\begin\x7btabularx\x7d\x7b\\textwidth\x7d\x7b|" ++
           strRepeat "X|" cols.length ++ "\x7d",
         "\\hline",
         headerRow cols,
         "\\hline",
         "\\end\x7btabularx\x7d",
         "\\end\x7bcenter\x7d"]) ∧
    (∀ (cols : List String) (col : String), col ∈ cols →
      (sanitize_latex col).data <:+: (headerRow cols).data) ∧
    (∀ rows : List (List String),
      classifyOutcome none rows 1 = ["\\textbf\x7b1\x7d row affected."]) ∧
    (∀ (rows : List (List String)) (rc : Int), 2 ≤ rc →
      classifyOutcome none rows rc =
        ["\\textbf\x7b" ++ toString rc ++ "\x7d rows affected."]) ∧
    (∀ rows : List (List String),
      classifyOutcome none rows 0 = ["Statement executed."]) := by
  refine ⟨?_, ?_, ?_, ?_, ?_, ?_⟩
  · intro cols rows rc; rfl
  · intro cols; rfl
  · intro cols col hcol
    have h1 : (sanitize_latex col).data <:+: (headerCell col).data := by
      unfold headerCell
      simp only [String.data_append]
      exact ⟨"\\multicolumn\x7b1\x7d\x7b|c|\x7d\x7b\\textbf\x7b".data,
        "\x7d\x7d".data, by simp⟩
    have h2 : (headerCell col).data <:+:
        (joinSep " & " (cols.map headerCell)).data :=
      joinSep_mem_inside " & " (cols.map headerCell) (headerCell col)
        (List.mem_map_of_mem headerCell hcol)
    have h3 : (joinSep " & " (cols.map headerCell)).data <:+:
        (headerRow cols).data := by
      unfold headerRow
      simp only [String.data_append]
      exact pref_inf (List.prefix_append _ _)
    exact (h1.trans h2).trans h3
  · intro rows
    have h1 : classifyOutcome none rows 1 = [rowcountLine 1] := by
      simp only [classifyOutcome]
      rw [if_pos (by omega)]
    rw [h1]
    decide
  · intro rows rc hrc
    have h1 : classifyOutcome none rows rc = [rowcountLine rc] := by
      simp only [classifyOutcome]
      rw [if_pos (by omega)]
    rw [h1]
    have h2 : rowcountLine rc =
        "\\textbf\x7b" ++ toString rc ++ "\x7d rows affected." := by
      unfold rowcountLine
      rw [if_neg (by omega)]
      apply String.ext
      simp only [String.data_append, List.append_assoc]
      congr 2
    rw [h2]
  · intro rows; rfl

/-- Witness for C4: one concrete column list and the concrete rowcounts. -/
theorem c4_outcome_classification_witness :
    ("ID" ∈ ["ID", "NAME"] ∧
      (sanitize_latex "ID").data <:+: (headerRow ["ID", "NAME"]).data) ∧
    (2 ≤ (3 : Int) ∧
      classifyOutcome none [] 3 = ["\\textbf\x7b3\x7d rows affected."]) :=
  ⟨⟨by decide, c4_outcome_classification.2.2.1 ["ID", "NAME"] "ID" (by decide)⟩,
   ⟨by decide, c4_outcome_classification.2.2.2.2.1 [] 3 (by decide)⟩⟩

/-! ## Bind-parameter detection: find_parameters (source lines 88-96),
over a model of the external sqlparse tokenizer -/

/-- Tokens of the modelled SQL tokenizer: named placeholders (the token
value includes the leading colon), single-quoted string literals (the
value includes the quotes), and any other character as itself. -/
inductive SqlTok where
  | ph (v : List Char)
  | lit (v : List Char)
  | ch (c : Char)
deriving DecidableEq, Repr

/-- Identifier characters that may follow ':' in a placeholder. -/
def isIdentChar (c : Char) : Bool := c.isAlphanum || c = '_'

/-- Scanner mode: normal text, inside a single-quoted literal, or inside a
placeholder, with the accumulated token characters. -/
inductive TkMode where
  | norm
  | instr (acc : List Char)
  | inph (acc : List Char)
deriving DecidableEq, Repr

/-- Close a placeholder accumulator: a lone ':' is ordinary punctuation,
not a placeholder. -/
def finishPh (acc : List Char) : SqlTok :=
  if 2 ≤ acc.length then SqlTok.ph acc else SqlTok.ch ':'

/-- One character of the modelled sqlparse tokenization: quotes open and
close string literals (inside which nothing is a placeholder), ':'
followed by identifier characters forms a Name.Placeholder token, and any
other character is an ordinary token. -/
def tkStep (st : List SqlTok × TkMode) (c : Char) : List SqlTok × TkMode :=
  match st.2 with
  | TkMode.norm =>
    if c = '\'' then (st.1, TkMode.instr [c])
    else if c = ':' then (st.1, TkMode.inph [c])
    else (st.1 ++ [SqlTok.ch c], TkMode.norm)
  | TkMode.instr acc =>
    if c = '\'' then (st.1 ++ [SqlTok.lit (acc ++ [c])], TkMode.norm)
    else (st.1, TkMode.instr (acc ++ [c]))
  | TkMode.inph acc =>
    if isIdentChar c then (st.1, TkMode.inph (acc ++ [c]))
    else
      if c = '\'' then (st.1 ++ [finishPh acc], TkMode.instr [c])
      else if c = ':' then (st.1 ++ [finishPh acc], TkMode.inph [c])
      else (st.1 ++ [finishPh acc] ++ [SqlTok.ch c], TkMode.norm)

/-- Flush the scanner state at end of input. -/
def tkFlush (st : List SqlTok × TkMode) : List SqlTok :=
  match st.2 with
  | TkMode.norm => st.1
  | TkMode.instr acc => st.1 ++ [SqlTok.lit acc]
  | TkMode.inph acc => st.1 ++ [finishPh acc]

/-- Model of the external sqlparse token stream of one statement,
restricted to the distinctions find_parameters relies on: true placeholder
tokens versus text inside single-quoted string literals. -/
def tokenizeSql (q : List Char) : List SqlTok :=
  tkFlush (q.foldl tkStep ([], TkMode.norm))

/-- The placeholder name carried by a token, if any: the token value with
the leading ':' removed (source lines 93-94). -/
def phName : SqlTok → Option String
  | SqlTok.ph v => if v.head? = some ':' then some (String.mk (v.drop 1)) else none
  | _ => none

/-- Insertion into the Python set of parameter names, modelled as a
first-occurrence-ordered duplicate-free list. -/
def insertNew (l : List String) (x : String) : List String :=
  if x ∈ l then l else l ++ [x]

/-- Model of find_parameters (source lines 88-96): the distinct names of
the placeholder tokens of the statement. -/
def find_parameters (q : String) : List String :=
  ((tokenizeSql q.data).filterMap phName).foldl insertNew []

/-- Model of the prompting loop (source lines 115-118): each collected
parameter name is prompted for on stderr and bound to the operator's one
reply line. -/
def fill_params (params : List String) (reply : String → String) :
    List (String × String) :=
  params.map (fun p => (p, reply p))

/-- Membership in the modelled set insertion. -/
theorem mem_insertNew (l : List String) (y x : String) :
    x ∈ insertNew l y ↔ x ∈ l ∨ x = y := by
  unfold insertNew
  by_cases h : y ∈ l
  · rw [if_pos h]
    constructor
    · exact fun hx => Or.inl hx
    · rintro (hx | hx)
      · exact hx
      · rw [hx]; exact h
  · rw [if_neg h]
    simp

/-- Membership after folding set insertions. -/
theorem mem_foldl_insertNew :
    ∀ (xs acc : List String) (x : String),
      x ∈ xs.foldl insertNew acc ↔ x ∈ acc ∨ x ∈ xs := by
  intro xs
  induction xs with
  | nil => intro acc x; simp
  | cons y ys ih =>
    intro acc x
    rw [List.foldl_cons, ih (insertNew acc y) x, mem_insertNew]
    constructor
    · rintro ((h | h) | h)
      · exact Or.inl h
      · exact Or.inr (by simp [h])
      · exact Or.inr (by simp [h])
    · rintro (h | h)
      · exact Or.inl (Or.inl h)
      · rcases List.mem_cons.mp h with h1 | h1
        · exact Or.inl (Or.inr h1)
        · exact Or.inr h1

/-- Folding set insertions preserves duplicate-freedom. -/
theorem nodup_foldl_insertNew :
    ∀ (xs acc : List String), acc.Nodup → (xs.foldl insertNew acc).Nodup := by
  intro xs
  induction xs with
  | nil => intro acc h; simpa using h
  | cons y ys ih =>
    intro acc h
    rw [List.foldl_cons]
    apply ih
    unfold insertNew
    by_cases hy : y ∈ acc
    · rw [if_pos hy]; exact h
    · rw [if_neg hy]
      simp [List.nodup_append, h, hy]

/-- Filtering the parameter/value pairs of a duplicate-free parameter list
for one present name gives exactly its single binding. -/
theorem filter_pairs_of_nodup :
    ∀ (params : List String), params.Nodup →
      ∀ p ∈ params, ∀ reply : String → String,
        (params.map (fun x => (x, reply x))).filter (fun pr => pr.1 == p) =
          [(p, reply p)] := by
  intro params
  induction params with
  | nil => intro _ p hp; simp at hp
  | cons y ys ih =>
    intro hnd p hp reply
    have hy : y ∉ ys := (List.nodup_cons.mp hnd).1
    have hys : ys.Nodup := (List.nodup_cons.mp hnd).2
    rcases List.mem_cons.mp hp with h | h
    · subst h
      simp only [List.map_cons, List.filter_cons]
      rw [if_pos (by simp)]
      have : (ys.map (fun x => (x, reply x))).filter (fun pr => pr.1 == p) = [] := by
        rw [List.filter_eq_nil_iff]
        intro a ha
        obtain ⟨x, hx, rfl⟩ := List.mem_map.mp ha
        have : x ≠ p := fun hxy => hy (hxy ▸ hx)
        simp [this]
      rw [this]
    · have hpy : p ≠ y := fun hq => hy (hq ▸ h)
      simp only [List.map_cons, List.filter_cons]
      rw [if_neg (by simp [hpy.symm])]
      exact ih hys p h reply

/-- C5: the collected bind parameters are exactly the distinct names of
true ":identifier" placeholder tokens of the tokenizer; ":a" and ":b"
inside a string literal are not collected; each distinct collected name is
bound to a single reply exactly once. -/
theorem c5_bind_parameter_detection :
    (∀ q : String, (find_parameters q).Nodup) ∧
    (∀ q p : String,
      p ∈ find_parameters q ↔ SqlTok.ph (':' :: p.data) ∈ tokenizeSql q.data) ∧
    find_parameters "SELECT ':a :b' FROM t WHERE x = :c" = ["c"] ∧
    (∀ (q : String) (reply : String → String) (p : String),
      p ∈ find_parameters q →
      (fill_params (find_parameters q) reply).filter (fun pr => pr.1 == p) =
        [(p, reply p)]) := by
  refine ⟨?_, ?_, by decide, ?_⟩
  · intro q
    exact nodup_foldl_insertNew _ [] (by simp)
  · intro q p
    unfold find_parameters
    rw [mem_foldl_insertNew]
    simp only [List.not_mem_nil, false_or]
    rw [List.mem_filterMap]
    constructor
    · rintro ⟨t, ht, hname⟩
      cases t with
      | ph v =>
        simp only [phName] at hname
        by_cases hh : v.head? = some ':'
        · rw [if_pos hh] at hname
          cases v with
          | nil => simp at hh
          | cons c v' =>
            simp at hh
            subst hh
            have : p = String.mk v' := by
              cases hname
              rfl
            rw [this]
            simpa using ht
        · rw [if_neg hh] at hname; cases hname
      | lit v => simp [phName] at hname
      | ch c => simp [phName] at hname
    · intro ht
      refine ⟨SqlTok.ph (':' :: p.data), ht, ?_⟩
      simp [phName]
  · intro q reply p hp
    exact filter_pairs_of_nodup (find_parameters q)
      (nodup_foldl_insertNew _ [] (by simp)) p hp reply

/-- Witness for C5: the binding rule on the concrete statement whose only
true placeholder is ":c". -/
theorem c5_bind_parameter_detection_witness :
    "c" ∈ find_parameters "SELECT ':a :b' FROM t WHERE x = :c" ∧
    (fill_params (find_parameters "SELECT ':a :b' FROM t WHERE x = :c")
        (fun _ => "42")).filter (fun pr => pr.1 == "c") = [("c", "42")] :=
  ⟨by decide,
   c5_bind_parameter_detection.2.2.2 "SELECT ':a :b' FROM t WHERE x = :c"
     (fun _ => "42") "c" (by decide)⟩

/-! ## Statement preprocessing in process_script (source lines 98-104),
over a model of the external sqlparse.split -/

/-- Python str.split(sep) for a one-character separator: empty pieces are
kept, and the piece after the last separator is always produced. -/
def splitOnChar (sep : Char) (l : List Char) : List (List Char) :=
  let st := l.foldl
    (fun (st : List (List Char) × List Char) c =>
      if c = sep then (st.1 ++ [st.2], []) else (st.1, st.2 ++ [c]))
    ([], [])
  st.1 ++ [st.2]

/-- Joining character lines with a separator character, as "\n".join. -/
def joinChar (sep : Char) : List (List Char) → List Char
  | [] => []
  | [x] => x
  | x :: xs => x ++ [sep] ++ joinChar sep xs

/-- Model of Python str.strip(): whitespace dropped from both ends. -/
def pyStrip (l : List Char) : List Char :=
  (((l.dropWhile pySpace).reverse).dropWhile pySpace).reverse

/-- Model of the marker-line removal of process_script (source line 99):
split the task text on newlines, drop lines starting with "-- Task",
rejoin with newlines. -/
def removeMarkerLines (script : List Char) : List Char :=
  joinChar '\n'
    ((splitOnChar '\n' script).filter
      (fun l => ! "-- Task".data.isPrefixOf l))

/-- One scan step of the modelled sqlparse.split: semicolons outside
single-quoted literals end a statement (the semicolon stays with it). -/
def splitStep (st : List (List Char) × List Char × Bool) (c : Char) :
    List (List Char) × List Char × Bool :=
  if st.2.2 then (st.1, st.2.1 ++ [c], c ≠ '\'')
  else if c = '\'' then (st.1, st.2.1 ++ [c], true)
  else if c = ';' then (st.1 ++ [st.2.1 ++ [c]], [], false)
  else (st.1, st.2.1 ++ [c], false)

/-- Model of the external sqlparse.split (source line 100): statements are
cut after each top-level semicolon and each returned statement is stripped
of surrounding whitespace, exactly as the library's split does before the
caller sees them. -/
def sqlparseSplit (script : List Char) : List (List Char) :=
  let st := script.foldl splitStep ([], [], false)
  (st.1 ++ [st.2.1]).map pyStrip

/-- The statement candidates the per-statement loop of process_script
iterates over (source lines 100-101). -/
def statementCandidates (script : List Char) : List (List Char) :=
  sqlparseSplit (removeMarkerLines script)

/-- The statements actually rendered and executed: the loop's
`if not query: continue` skips exactly the empty strings
(source lines 102-104; the preceding `query.strip()` result is discarded). -/
def executedStatements (script : List Char) : List (List Char) :=
  (statementCandidates script).filter (fun q => ! q.isEmpty)

/-- A stripped string is empty or starts and ends with non-whitespace; in
particular a whitespace-only stripped string is empty. -/
theorem pyStrip_all_whitespace_nil :
    ∀ l : List Char, (∀ c ∈ pyStrip l, pySpace c = true) → pyStrip l = [] := by
  intro l hall
  by_contra hne
  have hhead : ∃ c rest, pyStrip l = c :: rest := by
    cases h : pyStrip l with
    | nil => exact absurd h hne
    | cons c rest => exact ⟨c, rest, rfl⟩
  obtain ⟨c, rest, hc⟩ := hhead
  have hmem : c ∈ pyStrip l := by rw [hc]; simp
  have hws : pySpace c = true := hall c hmem
  have : pyStrip l = (((l.dropWhile pySpace).reverse).dropWhile pySpace).reverse := rfl
  have hrev : ((pyStrip l).reverse) = ((l.dropWhile pySpace).reverse).dropWhile pySpace := by
    rw [this, List.reverse_reverse]
  have hlast : ∃ d rest2, ((l.dropWhile pySpace).reverse).dropWhile pySpace = d :: rest2 := by
    cases h : ((l.dropWhile pySpace).reverse).dropWhile pySpace with
    | nil =>
      rw [h] at hrev
      have : pyStrip l = [] := by
        have := congrArg List.reverse hrev
        simpa using this
      exact absurd this hne
    | cons d rest2 => exact ⟨d, rest2, rfl⟩
  obtain ⟨d, rest2, hd⟩ := hlast
  have hdws : pySpace d = false := by
    have := List.head?_dropWhile_not pySpace ((l.dropWhile pySpace).reverse)
    rw [hd] at this
    simpa using this
  have hdmem : d ∈ pyStrip l := by
    have : d ∈ (pyStrip l).reverse := by rw [hrev, hd]; simp
    simpa using this
  have := hall d hdmem
  rw [hdws] at this
  cases this

/-- Every statement candidate is already stripped. -/
theorem statementCandidates_stripped :
    ∀ (script : List Char) (q : List Char),
      q ∈ statementCandidates script → ∃ raw, q = pyStrip raw := by
  intro script q hq
  unfold statementCandidates sqlparseSplit at hq
  simp only [List.mem_map] at hq
  obtain ⟨raw, _, hraw⟩ := hq
  exact ⟨raw, hraw.symm⟩

/-- C9: every statement produced by the split that is empty or consists
only of whitespace is skipped by the statement loop — it is not among the
statements that get a code block and an execution. -/
theorem c9_whitespace_statements_skipped :
    ∀ (script : List Char) (q : List Char),
      q ∈ statementCandidates script →
      (∀ c ∈ q, pySpace c = true) →
      q ∉ executedStatements script := by
  intro script q hq hws
  obtain ⟨raw, hraw⟩ := statementCandidates_stripped script q hq
  have hnil : q = [] := by
    rw [hraw]
    apply pyStrip_all_whitespace_nil
    intro c hc
    exact hws c (by rw [hraw]; exact hc)
  intro hmem
  unfold executedStatements at hmem
  rw [List.mem_filter] at hmem
  rw [hnil] at hmem
  simp at hmem

/-- Witness for C9: a task text whose second statement region is pure
whitespace yields a whitespace candidate that is not executed. -/
theorem c9_whitespace_statements_skipped_witness :
    ([] : List Char) ∈ statementCandidates "SELECT 1;  \n".data ∧
    ([] : List Char) ∉ executedStatements "SELECT 1;  \n".data :=
  ⟨by decide,
   c9_whitespace_statements_skipped "SELECT 1;  \n".data [] (by decide)
     (by decide)⟩

/-! ## Top-level error protocol: main (source lines 132-182) and the
__main__ guard (source lines 185-187) -/

/-- Information carried by a caught oracledb.Error (source lines 174-176). -/
structure OracleErr where
  code : Int
  message : String
deriving DecidableEq, Repr

/-- How a run's database interaction goes: everything succeeds, the
connection attempt itself fails, or an execution error occurs after the
connection was opened. -/
inductive DbEvent where
  | ok
  | connectFail (e : OracleErr)
  | execFail (e : OracleErr)
deriving DecidableEq, Repr

/-- The stderr line printed by the top-level handler (source line 176). -/
def errLine (e : OracleErr) : String :=
  "Database error occurred: " ++ toString e.code ++ " - " ++ e.message

/-- Observable outcome of a run of main. -/
structure MainResult where
  success : Bool
  connectionOpened : Bool
  connectionClosed : Bool
  stderrLines : List String
deriving DecidableEq, Repr

/-- Model of main's try/except/finally (source lines 145-182): an
oracledb.Error is caught once at the top level, its code and message are
printed to stderr, the finally block closes the connection whenever one
was opened (source lines 179-182), and main returns True on success and
False on a database error. -/
def main_model : DbEvent → MainResult
  | DbEvent.ok =>
    { success := true, connectionOpened := true, connectionClosed := true,
      stderrLines := ["Connecting to the database... ", "connected!",
        "Connection closed."] }
  | DbEvent.connectFail e =>
    { success := false, connectionOpened := false, connectionClosed := false,
      stderrLines := ["Connecting to the database... ", errLine e] }
  | DbEvent.execFail e =>
    { success := false, connectionOpened := true, connectionClosed := true,
      stderrLines := ["Connecting to the database... ", "connected!",
        errLine e, "Connection closed."] }

/-- Model of the __main__ guard (source lines 185-187): exit(-1) when main
returned False, normal termination with status 0 otherwise. -/
def programExitCode (ev : DbEvent) : Int :=
  if (main_model ev).success = false then -1 else 0

/-- C6: any database error is caught once at the top level and printed as
a code-and-message line on stderr, the connection is released whenever it
was opened, the process then exits with -1, and an error-free run exits
with 0. -/
theorem c6_error_exit_protocol :
    (∀ ev : DbEvent, (main_model ev).connectionOpened = true →
      (main_model ev).connectionClosed = true) ∧
    (∀ (e : OracleErr) (ev : DbEvent),
      ev = DbEvent.connectFail e ∨ ev = DbEvent.execFail e →
      errLine e ∈ (main_model ev).stderrLines ∧ programExitCode ev = -1) ∧
    programExitCode DbEvent.ok = 0 := by
  refine ⟨?_, ?_, by decide⟩
  · intro ev
    cases ev <;> simp [main_model]
  · intro e ev hev
    rcases hev with h | h <;> subst h <;>
      simp [main_model, programExitCode, errLine]

/-- Witness for C6: a concrete connection failure prints its error line
and exits -1, and the error-free run exits 0. -/
theorem c6_error_exit_protocol_witness :
    (errLine ⟨1017, "invalid credentials"⟩ ∈
        (main_model (DbEvent.connectFail ⟨1017, "invalid credentials"⟩)).stderrLines ∧
      programExitCode (DbEvent.connectFail ⟨1017, "invalid credentials"⟩) = -1) ∧
    (main_model (DbEvent.execFail ⟨942, "table or view does not exist"⟩)).connectionOpened = true ∧
    (main_model (DbEvent.execFail ⟨942, "table or view does not exist"⟩)).connectionClosed = true :=
  ⟨c6_error_exit_protocol.2.1 ⟨1017, "invalid credentials"⟩
      (DbEvent.connectFail ⟨1017, "invalid credentials"⟩) (Or.inl rfl),
   by decide,
   c6_error_exit_protocol.1 (DbEvent.execFail ⟨942, "table or view does not exist"⟩)
     (by decide)⟩

/-! ## Preamble emission: print_header (source lines 51-66) -/

/-- Model of Python str.replace(pat, repl): every non-overlapping
occurrence of the pattern, scanning left to right, is replaced; the
replacement text itself is not rescanned. -/
def replaceAll (pat repl : List Char) : List Char → List Char
  | [] => []
  | c :: cs =>
    if pat.isPrefixOf (c :: cs) ∧ pat ≠ [] then
      repl ++ replaceAll pat repl (cs.drop (pat.length - 1))
    else
      c :: replaceAll pat repl cs
termination_by l => l.length
decreasing_by
  · simp only [List.length_cons, List.length_drop]
    omega
  · simp only [List.length_cons]
    omega

/-- A short piece that the pattern extends over is an initial piece of the
pattern. -/
theorem pref_short {pat t s : List Char}
    (h : pat <+: t ++ s) (hlen : t.length ≤ pat.length) : t <+: pat := by
  obtain ⟨r, hr⟩ := h
  have htake := congrArg (List.take t.length) hr
  rw [List.take_append_of_le_length hlen, List.take_left] at htake
  rw [← htake]
  exact List.take_prefix t.length pat

/-- A pattern matching inside a concatenation and fitting within its first
part matches that first part. -/
theorem pref_long {pat t s : List Char}
    (h : pat <+: t ++ s) (hlen : pat.length ≤ t.length) : pat <+: t := by
  have heq := List.prefix_iff_eq_take.mp h
  rw [List.take_append_of_le_length hlen] at heq
  rw [heq]
  exact List.take_prefix pat.length t

/-- A pattern starting in a short first part continues into the second. -/
theorem pref_rest {pat t s : List Char}
    (h : pat <+: t ++ s) (hlen : t.length ≤ pat.length) :
    pat.drop t.length <+: s := by
  obtain ⟨r, hr⟩ := h
  have hdrop := congrArg (List.drop t.length) hr
  rw [List.drop_append_of_le_length hlen, List.drop_left] at hdrop
  exact ⟨r, hdrop⟩

/-- When nothing in the region matches the pattern, replacement walks past
the region unchanged, whatever follows. -/
theorem replaceAll_clean_concat (pat repl : List Char) :
    ∀ a s : List Char,
      (∀ t, t <:+ a → t ≠ [] → ¬ pat <+: (t ++ s)) →
      replaceAll pat repl (a ++ s) = a ++ replaceAll pat repl s := by
  intro a
  induction a with
  | nil => intro s _; simp
  | cons c a' ih =>
    intro s h
    have hhead : ¬ pat <+: (c :: a' ++ s) := by
      have := h (c :: a') (List.suffix_refl _) (by simp)
      simpa using this
    rw [List.cons_append]
    rw [show replaceAll pat repl (c :: (a' ++ s)) =
        c :: replaceAll pat repl (a' ++ s) from by
      rw [replaceAll]
      rw [if_neg ?_]
      intro hand
      exact hhead (by simpa using List.isPrefixOf_iff_prefix.mp hand.1)]
    rw [ih s (fun t ht htne => h t (ht.trans (List.suffix_cons c a')) htne)]
    rfl

/-- Replacement leaves a pattern-free word unchanged. -/
theorem replaceAll_of_clean (pat repl a : List Char)
    (h : ∀ t ∈ a.tails, t ≠ [] → ¬ pat <+: t) :
    replaceAll pat repl a = a := by
  have := replaceAll_clean_concat pat repl a []
    (fun t ht htne => by
      rw [List.append_nil]
      exact h t (by rw [List.mem_tails]; exact ht) htne)
  rw [List.append_nil] at this
  rw [this]
  simp [replaceAll]

/-- A match at the head of the word is replaced and scanning resumes after
the matched part. -/
theorem replaceAll_head_match (pat repl rest : List Char) (hne : pat ≠ []) :
    replaceAll pat repl (pat ++ rest) = repl ++ replaceAll pat repl rest := by
  obtain ⟨p, ps, rfl⟩ : ∃ p ps, pat = p :: ps := by
    cases pat with
    | nil => exact absurd rfl hne
    | cons p ps => exact ⟨p, ps, rfl⟩
  rw [List.cons_append, replaceAll]
  rw [if_pos ?_]
  · rw [show (ps ++ rest).drop ((p :: ps).length - 1) = rest from by
      simp only [List.length_cons, Nat.add_sub_cancel]
      exact List.drop_left ps rest]
  · constructor
    · rw [List.isPrefixOf_iff_prefix]
      rw [← List.cons_append]
      exact List.prefix_append (p :: ps) rest
    · exact hne

/-- No suffix of the region, continued by anything, starts a pattern match,
provided the pattern is not inside the region and no proper pattern tail
starts the continuation. -/
theorem no_match_from_suffix (pat a s : List Char)
    (hinf : ¬ pat <:+: a)
    (hk : ∀ k ∈ List.range pat.length, 0 < k → ¬ (pat.drop k) <+: s) :
    ∀ t, t <:+ a → t ≠ [] → ¬ pat <+: (t ++ s) := by
  intro t ht htne hcontra
  by_cases hlen : pat.length ≤ t.length
  · have hp : pat <+: t := pref_long hcontra hlen
    exact hinf ((pref_inf hp).trans (suf_inf ht))
  · push_neg at hlen
    have h2 : pat.drop t.length <+: s := pref_rest hcontra (by omega)
    have hpos : 0 < t.length := List.length_pos.mpr htne
    exact hk t.length (List.mem_range.mpr (by omega)) hpos h2

/-- As no_match_from_suffix, but with both conditions on the region alone,
so that they are decidable for a concrete region whatever follows it. -/
theorem no_match_from_suffix_concrete (pat a : List Char) (s : List Char)
    (hinf : ¬ pat <:+: a)
    (hshort : ∀ t ∈ a.tails, t ≠ [] → t.length < pat.length → ¬ t <+: pat) :
    ∀ t, t <:+ a → t ≠ [] → ¬ pat <+: (t ++ s) := by
  intro t ht htne hcontra
  by_cases hlen : pat.length ≤ t.length
  · have hp : pat <+: t := pref_long hcontra hlen
    exact hinf ((pref_inf hp).trans (suf_inf ht))
  · push_neg at hlen
    have hp : t <+: pat := pref_short hcontra (by omega)
    exact hshort t (by rw [List.mem_tails]; exact ht) htne hlen hp

/-- The fixed preamble template of print_header (source lines 53-63),
exactly as in the source's raw triple-quoted string. -/
def headerTemplate : String :=
  "\n\\documentclass\x7barticle\x7d\n\\usepackage\x7bminted\x7d\n\\usepackage\x7bgeometry\x7d\n\\usepackage\x7bamsmath\x7d\n\\usepackage\x7btabularx\x7d\n\n\\geometry\x7ba4paper,left=1cm,right=1cm,top=2cm,bottom=2cm\x7d\n\\author\x7bAUTHOR\x7d\n\\title\x7b\\vspace\x7b-2cm\x7d TITLE\x7d\n\\date\x7b\x7d\n"

/-- The template text before the AUTHOR substitution point. -/
def headerPre : String :=
  "\n\\documentclass\x7barticle\x7d\n\\usepackage\x7bminted\x7d\n\\usepackage\x7bgeometry\x7d\n\\usepackage\x7bamsmath\x7d\n\\usepackage\x7btabularx\x7d\n\n\\geometry\x7ba4paper,left=1cm,right=1cm,top=2cm,bottom=2cm\x7d\n\\author\x7b"

/-- The template text between the AUTHOR and TITLE substitution points. -/
def headerMid : String := "\x7d\n\\title\x7b\\vspace\x7b-2cm\x7d "

/-- The template text after the TITLE substitution point. -/
def headerPost : String := "\x7d\n\\date\x7b\x7d\n"

/-- The template characters following the AUTHOR substitution point. -/
def restAfterAuthor : List Char :=
  headerMid.data ++ ("TITLE".data ++ headerPost.data)

/-- Model of print_header (source lines 51-66): the template with "AUTHOR"
replaced by the author string and then "TITLE" replaced by the title
string, via Python str.replace. -/
def print_header (author title : String) : String :=
  String.mk (replaceAll "TITLE".data title.data
    (replaceAll "AUTHOR".data author.data headerTemplate.data))

/-- The first replace substitutes the author text for the template's one
AUTHOR occurrence and touches nothing else. -/
theorem replace_author_step (author : String) :
    replaceAll "AUTHOR".data author.data headerTemplate.data =
      headerPre.data ++ (author.data ++ restAfterAuthor) := by
  have hd : headerTemplate.data =
      headerPre.data ++ ("AUTHOR".data ++ restAfterAuthor) := by decide
  rw [hd]
  rw [replaceAll_clean_concat "AUTHOR".data author.data headerPre.data
      ("AUTHOR".data ++ restAfterAuthor)
      (no_match_from_suffix_concrete "AUTHOR".data headerPre.data _
        (by decide) (by decide))]
  rw [replaceAll_head_match "AUTHOR".data author.data restAfterAuthor
      (by decide)]
  rw [replaceAll_of_clean "AUTHOR".data author.data restAfterAuthor
      (by decide)]

/-- The second replace substitutes the title text for the template's one
TITLE occurrence in the tail region. -/
theorem replace_title_tail (title : String) :
    replaceAll "TITLE".data title.data restAfterAuthor =
      headerMid.data ++ (title.data ++ headerPost.data) := by
  rw [show restAfterAuthor =
      headerMid.data ++ ("TITLE".data ++ headerPost.data) from rfl]
  rw [replaceAll_clean_concat "TITLE".data title.data headerMid.data
      ("TITLE".data ++ headerPost.data)
      (no_match_from_suffix_concrete "TITLE".data headerMid.data _
        (by decide) (by decide))]
  rw [replaceAll_head_match "TITLE".data title.data headerPost.data
      (by decide)]
  rw [replaceAll_of_clean "TITLE".data title.data headerPost.data
      (by decide)]

/-- The second replace walks untouched over the inserted author text as
long as the author text does not contain "TITLE". -/
theorem replace_title_step (author title : String)
    (h : ¬ "TITLE".data <:+: author.data) :
    replaceAll "TITLE".data title.data
        (headerPre.data ++ (author.data ++ restAfterAuthor)) =
      headerPre.data ++
        (author.data ++ (headerMid.data ++ (title.data ++ headerPost.data))) := by
  rw [replaceAll_clean_concat "TITLE".data title.data headerPre.data
      (author.data ++ restAfterAuthor)
      (no_match_from_suffix_concrete "TITLE".data headerPre.data _
        (by decide) (by decide))]
  rw [replaceAll_clean_concat "TITLE".data title.data author.data
      restAfterAuthor
      (no_match_from_suffix "TITLE".data author.data restAfterAuthor h
        (by decide))]
  rw [replace_title_tail]

/-- C8 (amended): for every author string not containing the substring
"TITLE" and every title string, the emitted preamble is the fixed template
with the author and the title inserted literally, with no escaping or
sanitizing applied to either; the decomposition really is the source
template. -/
theorem c8_preamble_substitution (author title : String)
    (h : ¬ "TITLE".data <:+: author.data) :
    print_header author title =
      headerPre ++ author ++ headerMid ++ title ++ headerPost ∧
    headerPre ++ "AUTHOR" ++ headerMid ++ "TITLE" ++ headerPost =
      headerTemplate := by
  constructor
  · unfold print_header
    rw [replace_author_step author]
    rw [replace_title_step author title h]
    apply String.ext
    simp only [String.data_append, List.append_assoc]
  · decide

/-- Witness for C8 (amended): a concrete author and title are inserted
literally. -/
theorem c8_preamble_substitution_witness :
    print_header "A. Uthor 123456" "Lab 1" =
      headerPre ++ "A. Uthor 123456" ++ headerMid ++ "Lab 1" ++ headerPost ∧
    headerPre ++ "AUTHOR" ++ headerMid ++ "TITLE" ++ headerPost =
      headerTemplate :=
  c8_preamble_substitution "A. Uthor 123456" "Lab 1" (by decide)

/-- C8 counterexample: for the author string "TITLE" the claimed literal
substitution fails — the second replace also rewrites the author text just
inserted, so the emitted preamble carries the title where the author was
meant to stand. -/
theorem c8_preamble_literal_counterexample :
    print_header "TITLE" "X" =
        headerPre ++ "X" ++ headerMid ++ "X" ++ headerPost ∧
    ¬ (print_header "TITLE" "X" =
        headerPre ++ "TITLE" ++ headerMid ++ "X" ++ headerPost) := by
  have h1 : print_header "TITLE" "X" =
      headerPre ++ "X" ++ headerMid ++ "X" ++ headerPost := by
    unfold print_header
    rw [replace_author_step "TITLE"]
    rw [replaceAll_clean_concat "TITLE".data "X".data headerPre.data
        ("TITLE".data ++ restAfterAuthor)
        (no_match_from_suffix_concrete "TITLE".data headerPre.data _
          (by decide) (by decide))]
    rw [replaceAll_head_match "TITLE".data "X".data restAfterAuthor
        (by decide)]
    rw [replace_title_tail "X"]
    apply String.ext
    simp only [String.data_append, List.append_assoc]
  refine ⟨h1, ?_⟩
  rw [h1]
  decide
